import Mathlib

/-!
Verification of the `xmlr` streaming XML tokenizer (`src/parser.ts`).

The development shallowly embeds the tokenizer: the mutable fields of the
`Parser` class become a `ParserS` structure, the character loop of `_write`
becomes `processChar` / `writeChunk`, and the event emissions become an
explicit event list returned by each step.  JavaScript string primitives
(`slice`, `indexOf`, `lastIndexOf`, `trim`, index lookups returning
`undefined`) are modelled over `List Char` with `Int` indices so that the
negative-index conventions of JavaScript are preserved.
-/

namespace Xmlr

/-- The `STATE` enum of the tokenizer. -/
inductive STATE where
  | TEXT
  | TAG_NAME
  | INSTRUCTION
  | IGNORE_COMMENT
  | CDATA
deriving DecidableEq, Repr

/-- The `TAG_TYPE` enum. -/
inductive TAG_TYPE where
  | NONE
  | OPENING
  | CLOSING
  | SELF_CLOSING
deriving DecidableEq, Repr

/-- An attribute value: the tag-string parser produces strings, while the
self-closing marker is the JavaScript boolean `true`. -/
inductive AttrVal where
  | str (s : String)
  | bool (b : Bool)
deriving DecidableEq, Repr

/-- A JavaScript object used as an attribute mapping: an insertion-ordered
association list with unique keys. -/
abbrev Attrs := List (String × AttrVal)

/-- The events emitted by the tokenizer (`EVENTS` in the source). -/
inductive Event where
  | error (msg : String)
  | text (content : String)
  | instruction (name : Option String) (attrs : Attrs)
  | opentag (name : Option String) (attrs : Attrs)
  | closetag (name : Option String) (attrs : Attrs)
  | cdata (content : String)
deriving DecidableEq, Repr

/-! ### JavaScript string primitives over `List Char` -/

/-- `s[i]` on a JavaScript string: `undefined` (here `none`) when the index is
negative or out of range. -/
def jsIdx (l : List Char) (i : Int) : Option Char :=
  if 0 ≤ i then l.get? i.toNat else none

/-- `s.slice(start, stop)` on a JavaScript string, including the treatment of
negative indices as offsets from the end. -/
def jsSlice (l : List Char) (start stop : Int) : List Char :=
  let n : Int := l.length
  let s := if start < 0 then max (n + start) 0 else min start n
  let e := if stop < 0 then max (n + stop) 0 else min stop n
  (l.take e.toNat).drop s.toNat

/-- `s.slice(start)` on a JavaScript string. -/
def jsSliceFrom (l : List Char) (start : Int) : List Char :=
  jsSlice l start l.length

/-- The whitespace class used both by `String.prototype.trim` and by `\s`
in JavaScript regular expressions: WhiteSpace (tab, vertical tab, form feed,
space, no-break space, byte-order mark, Unicode space separators) together
with the LineTerminator characters. -/
def isJsSpace (c : Char) : Bool :=
  c == ' ' || c == '\t' || c == '\n' || c == '\r' || c == '\x0b' ||
  c == '\x0c' || c == '\u00A0' || c == '\uFEFF' || c == '\u1680' ||
  ('\u2000' ≤ c && c ≤ '\u200A') || c == '\u2028' || c == '\u2029' ||
  c == '\u202F' || c == '\u205F' || c == '\u3000'

/-- `s.trim()` on a JavaScript string. -/
def jsTrim (l : List Char) : List Char :=
  ((l.dropWhile isJsSpace).reverse.dropWhile isJsSpace).reverse

/-- `startsWith l pat` holds when `pat` is an initial segment of `l`. -/
def startsWith : List Char → List Char → Bool
  | _, [] => true
  | [], _ :: _ => false
  | a :: la, b :: lb => a == b && startsWith la lb

/-- Whether the two-character sequence `]>` occurs (at adjacent positions)
somewhere in the list.  During CDATA scanning the close trigger fires on the
lookback `]]>`, so content free of `]>` is scanned without interruption;
`]>` is also the pattern whose last occurrence `_onCDATAEnd` slices on. -/
def containsRB : List Char → Bool
  | [] => false
  | [_] => false
  | a :: b :: l => (a == ']' && b == '>') || containsRB (b :: l)

def jsIndexOfAux : List Char → List Char → Nat → Int
  | l, pat, i =>
    if startsWith l pat then (i : Int)
    else
      match l with
      | [] => -1
      | _ :: rest => jsIndexOfAux rest pat (i + 1)

/-- `s.indexOf(pat)` on JavaScript strings: index of the first occurrence,
`-1` when there is none. -/
def jsIndexOf (l pat : List Char) : Int := jsIndexOfAux l pat 0

def jsLastIndexOfAux : List Char → List Char → Nat → Int → Int
  | l, pat, i, best =>
    let best' := if startsWith l pat then (i : Int) else best
    match l with
    | [] => best'
    | _ :: rest => jsLastIndexOfAux rest pat (i + 1) best'

/-- `s.lastIndexOf(pat)` on JavaScript strings: index of the last occurrence,
`-1` when there is none. -/
def jsLastIndexOf (l pat : List Char) : Int := jsLastIndexOfAux l pat 0 (-1)

/-! ### The tag-string parser (`_parseTagString`) -/

/-- The character class `[a-zäöüßÄÖÜA-Z0-9:_\-./]` of the name regular
expression. -/
def isNameChar (c : Char) : Bool :=
  ('a' ≤ c && c ≤ 'z') || ('A' ≤ c && c ≤ 'Z') || ('0' ≤ c && c ≤ '9') ||
  c == 'ä' || c == 'ö' || c == 'ü' || c == 'ß' || c == 'Ä' || c == 'Ö' ||
  c == 'Ü' || c == ':' || c == '_' || c == '-' || c == '.' || c == '/'

/-- The character class `[a-zäöüßÄÖÜA-Z0-9:_\-.]` of the attribute regular
expression (the name class without `/`). -/
def isAttrChar (c : Char) : Bool :=
  ('a' ≤ c && c ≤ 'z') || ('A' ≤ c && c ≤ 'Z') || ('0' ≤ c && c ≤ '9') ||
  c == 'ä' || c == 'ö' || c == 'ü' || c == 'ß' || c == 'Ä' || c == 'Ö' ||
  c == 'Ü' || c == ':' || c == '_' || c == '-' || c == '.'

/-- JavaScript object assignment `m[k] = v`: an existing key keeps its
position and is overwritten, a new key is appended. -/
def objSet (m : List (String × String)) (k v : String) : List (String × String) :=
  if m.any (fun p => p.1 == k) then
    m.map (fun p => if p.1 == k then (k, v) else p)
  else m ++ [(k, v)]

/-- One attempt of the attribute regular expression
`([a-zäöüßÄÖÜA-Z0-9:_\-.]+?)="([^"]+?)"` anchored at the head of `s`.
Because the key class excludes `=` and the value class excludes `"`, the
non-greedy matches coincide with the maximal runs; a successful match
returns the key, the value, and the total number of characters consumed. -/
def matchAttrAt (s : List Char) : Option (String × String × Nat) :=
  let key := s.takeWhile isAttrChar
  if key.isEmpty then none
  else
    match s.drop key.length with
    | '=' :: '"' :: rest =>
      let v := rest.takeWhile (fun c => !(c == '"'))
      if v.isEmpty then none
      else
        match rest.drop v.length with
        | '"' :: _ => some (String.mk key, String.mk v, key.length + 2 + v.length + 1)
        | _ => none
    | _ => none

/-- Fuel-indexed version of the attribute-scanning loop; structural
recursion on the fuel keeps the definition kernel-reducible.  Each loop
iteration consumes at least one character, so `s.length` fuel always
suffices (`attrScanF_mono` below makes the fuel irrelevant). -/
def attrScanF : Nat → List Char → List (String × String) → List (String × String)
  | 0, _, acc => acc
  | fuel + 1, s, acc =>
    match matchAttrAt s with
    | some (k, v, n) => attrScanF fuel (s.drop n) (objSet acc k v)
    | none =>
      match s with
      | [] => acc
      | _ :: rest => attrScanF fuel rest acc

/-- The `while (match != null)` loop of `_parseTagString`: repeatedly `exec`
the global attribute regular expression (which searches forward from the end
of the previous match) and assign each match into the accumulating object. -/
def attrScan (s : List Char) (acc : List (String × String)) : List (String × String) :=
  attrScanF s.length s acc

/-- Fuel-indexed version of the raw match sequence. -/
def attrMatchListF : Nat → List Char → List (String × String)
  | 0, _ => []
  | fuel + 1, s =>
    match matchAttrAt s with
    | some (k, v, n) => (k, v) :: attrMatchListF fuel (s.drop n)
    | none =>
      match s with
      | [] => []
      | _ :: rest => attrMatchListF fuel rest

/-- The raw left-to-right sequence of `key="value"` matches found by the
attribute regular expression, before object assignment collapses duplicate
keys. -/
def attrMatchList (s : List Char) : List (String × String) :=
  attrMatchListF s.length s

/-- Whether the name regular expression `^([a-zäöüßÄÖÜA-Z0-9:_\-./]+?)(\s|$)`
accepts the position right after the candidate name: either end of string or
a whitespace character. -/
def nameEndOk (str : List Char) (k : Nat) : Bool :=
  match str.get? k with
  | some c => isJsSpace c
  | none => true

/-- `_parseTagString`: extract a leading name (maximal run of name
characters, which must be followed by whitespace or end of string), then scan
the remainder for `key="value"` pairs; a trailing `/` captured inside the
name is stripped after the attribute string is taken. -/
def parseTagString (str : List Char) : Option String × List (String × String) :=
  let nm := str.takeWhile isNameChar
  if nm.isEmpty then (none, [])
  else if nameEndOk str nm.length then
    let attributesString := str.drop nm.length
    let attributes := attrScan attributesString []
    let nm := if nm.getLast? == some '/' then nm.dropLast else nm
    (some (String.mk nm), attributes)
  else (none, [])

/-! ### The tokenizer state machine -/

/-- The mutable fields of the `Parser` class. -/
structure ParserS where
  state : STATE
  buffer : List Char
  pos : Nat
  tagType : TAG_TYPE
deriving DecidableEq, Repr

/-- The field initializers of `Parser`. -/
def initialParser : ParserS :=
  { state := STATE.TEXT, buffer := [], pos := 0, tagType := TAG_TYPE.NONE }

/-- Convert the mapping produced by the tag-string parser into an event
payload. -/
def toAttrs (l : List (String × String)) : Attrs :=
  l.map (fun kv => (kv.1, AttrVal.str kv.2))

/-- The mapping `{ ___selfClosing___: true }`. -/
def selfClosingAttrs : Attrs := [("___selfClosing___", AttrVal.bool true)]

/-- `_endRecording`: slice out the recorded token (dropping the leading
delimiter and the just-appended trigger character), keep only the last
buffered character for the `prev` lookback, and reset the cursor to 1. -/
def endRecording (p : ParserS) : ParserS × List Char :=
  let rcd := jsSlice p.buffer 1 ((p.pos : Int) - 1)
  ({ p with buffer := jsSliceFrom p.buffer (-1), pos := 1 }, rcd)

/-- `_onStartNewTag`: flush the trimmed pending text (suppressed when empty)
and enter tag-name recording. -/
def onStartNewTag (p : ParserS) : ParserS × List Event :=
  let (p, rcd) := endRecording p
  let text := jsTrim rcd
  let evs := if text.isEmpty then [] else [Event.text (String.mk text)]
  ({ p with state := STATE.TAG_NAME, tagType := TAG_TYPE.OPENING }, evs)

/-- `_onTagCompleted`: parse the recorded tag string and emit the events for
the current tag type; a failed name parse additionally emits an error event
first.  The truthiness guard `this.tagType && ...` of the source is kept as
an explicit `≠ NONE` conjunct. -/
def onTagCompleted (p : ParserS) : ParserS × List Event :=
  let (p, tag) := endRecording p
  let pr := parseTagString tag
  let name := pr.1
  let attributes := toAttrs pr.2
  let errEvs :=
    if name = none then
      [Event.error ("Failed to parse name for tag" ++ String.mk tag)]
    else []
  let openEvs :=
    if p.tagType ≠ TAG_TYPE.NONE ∧ p.tagType = TAG_TYPE.OPENING then
      [Event.opentag name attributes]
    else []
  let closeEvs :=
    if p.tagType ≠ TAG_TYPE.NONE ∧ p.tagType = TAG_TYPE.CLOSING then
      [Event.closetag name attributes]
    else []
  let selfEvs :=
    if p.tagType ≠ TAG_TYPE.NONE ∧ p.tagType = TAG_TYPE.SELF_CLOSING then
      let a := if attributes.isEmpty then selfClosingAttrs else attributes
      [Event.opentag name a, Event.closetag name a]
    else []
  ({ p with state := STATE.TEXT, tagType := TAG_TYPE.NONE },
    errEvs ++ openEvs ++ closeEvs ++ selfEvs)

/-- `_onCloseTagStart`. -/
def onCloseTagStart (p : ParserS) : ParserS :=
  let (p, _) := endRecording p
  { p with tagType := TAG_TYPE.CLOSING }

/-- `_onStartInstruction`. -/
def onStartInstruction (p : ParserS) : ParserS :=
  let (p, _) := endRecording p
  { p with state := STATE.INSTRUCTION }

/-- `_onEndInstruction`: move the cursor back one step (the instruction ends
with `?>`), slice out the instruction string, parse it, and emit. -/
def onEndInstruction (p : ParserS) : ParserS × List Event :=
  let p := { p with pos := p.pos - 1 }
  let (p, inst) := endRecording p
  let pr := parseTagString inst
  let errEvs :=
    if pr.1 = none then
      [Event.error ("Failed to parse name for inst" ++ String.mk inst)]
    else []
  ({ p with state := STATE.TEXT },
    errEvs ++ [Event.instruction pr.1 (toAttrs pr.2)])

/-- `_onCDATAStart`. -/
def onCDATAStart (p : ParserS) : ParserS :=
  let (p, _) := endRecording p
  { p with state := STATE.CDATA }

/-- `_onCDATAEnd`: the recording returns `CDATA[XXX]]`; the payload is
`text.slice(text.indexOf('[') + 1, text.lastIndexOf(']>') - 1)`. -/
def onCDATAEnd (p : ParserS) : ParserS × List Event :=
  let (p, rcd) := endRecording p
  let text := jsSlice rcd (jsIndexOf rcd ['['] + 1) (jsLastIndexOf rcd [']', '>'] - 1)
  ({ p with state := STATE.TEXT }, [Event.cdata (String.mk text)])

/-- `_onCommentStart`: no recording reset, only a state change. -/
def onCommentStart (p : ParserS) : ParserS :=
  { p with state := STATE.IGNORE_COMMENT }

/-- `_onCommentEnd`: the recorded comment text is computed and discarded. -/
def onCommentEnd (p : ParserS) : ParserS :=
  let (p, _) := endRecording p
  { p with state := STATE.TEXT }

/-- One iteration of the character loop of `_write`: read the lookback
character, append `c` to the buffer, advance the cursor, then dispatch on the
current state.  The `TAG_NAME` case keeps the source's sequence of
independent `if` statements (they are not `else if`). -/
def processChar (p0 : ParserS) (c : Char) : ParserS × List Event :=
  let prev := jsIdx p0.buffer ((p0.pos : Int) - 1)
  let p := { p0 with buffer := p0.buffer ++ [c], pos := p0.pos + 1 }
  match p.state with
  | STATE.TEXT =>
    if c == '<' then onStartNewTag p else (p, [])
  | STATE.TAG_NAME =>
    let p1 := if prev == some '<' && c == '?' then onStartInstruction p else p
    let p2 := if prev == some '<' && c == '/' then onCloseTagStart p1 else p1
    let p3 :=
      if jsIdx p2.buffer ((p2.pos : Int) - 3) == some '<' && prev == some '!' && c == '[' then
        onCDATAStart p2
      else p2
    let p4 :=
      if jsIdx p3.buffer ((p3.pos : Int) - 3) == some '<' && prev == some '!' && c == '-' then
        onCommentStart p3
      else p3
    if c == '>' then
      let p5 := if prev == some '/' then { p4 with tagType := TAG_TYPE.SELF_CLOSING } else p4
      onTagCompleted p5
    else (p4, [])
  | STATE.INSTRUCTION =>
    if prev == some '?' && c == '>' then onEndInstruction p else (p, [])
  | STATE.CDATA =>
    if jsIdx p.buffer ((p.pos : Int) - 3) == some ']' && prev == some ']' && c == '>' then
      onCDATAEnd p
    else (p, [])
  | STATE.IGNORE_COMMENT =>
    if jsIdx p.buffer ((p.pos : Int) - 3) == some '-' && prev == some '-' && c == '>' then
      (onCommentEnd p, [])
    else (p, [])

/-- `_write` on one chunk: process the characters in order, collecting the
emitted events. -/
def writeChunk (p : ParserS) (chunk : List Char) : ParserS × List Event :=
  chunk.foldl (fun acc c => let r := processChar acc.1 c; (r.1, acc.2 ++ r.2)) (p, [])

/-- Repeated `_write` calls, one per chunk. -/
def writeChunks (p : ParserS) (chunks : List (List Char)) : ParserS × List Event :=
  chunks.foldl (fun acc ch => let r := writeChunk acc.1 ch; (r.1, acc.2 ++ r.2)) (p, [])

/-- The end-of-input signal.  The `Parser` class overrides only `_write`; it
defines no `_final`/flush hook for stream completion, so ending the stream
runs no tokenizer code: no event is emitted and the state is untouched. -/
def endInput (p : ParserS) : ParserS × List Event := (p, [])

/-- The recorded token that `_endRecording` returns when the handler fires on
character `c`: the buffer has already been extended by `c` and the cursor
advanced. -/
def recAfter (p : ParserS) (c : Char) : List Char :=
  jsSlice (p.buffer ++ [c]) 1 (((p.pos + 1 : Nat) : Int) - 1)

/-- The recorded token of `_onEndInstruction`, which rewinds the cursor by
one before slicing. -/
def instRecAfter (p : ParserS) (c : Char) : List Char :=
  jsSlice (p.buffer ++ [c]) 1 (((p.pos + 1 - 1 : Nat) : Int) - 1)

/-! ### Unfolding and termination lemmas for the attribute scanner -/

theorem matchAttrAt_bounds {s : List Char} {k v : String} {n : Nat}
    (h : matchAttrAt s = some (k, v, n)) : 1 ≤ n ∧ 1 ≤ s.length := by
  simp only [matchAttrAt] at h
  split at h
  · exact absurd h (by simp)
  · rename_i hkey
    split at h
    · split at h
      · exact absurd h (by simp)
      · split at h
        · simp only [Option.some.injEq, Prod.mk.injEq] at h
          refine ⟨by omega, ?_⟩
          cases s with
          | nil => simp at hkey
          | cons a l => simp
        · exact absurd h (by simp)
    · exact absurd h (by simp)

theorem matchAttrAt_nil : matchAttrAt [] = none := rfl

theorem attrScanF_nil (f : Nat) (acc : List (String × String)) :
    attrScanF f [] acc = acc := by
  cases f <;> rfl

theorem attrScanF_succ (f : Nat) (s : List Char) (acc : List (String × String)) :
    attrScanF (f + 1) s acc =
      match matchAttrAt s with
      | some (k, v, n) => attrScanF f (s.drop n) (objSet acc k v)
      | none =>
        match s with
        | [] => acc
        | _ :: rest => attrScanF f rest acc := rfl

theorem attrScanF_mono : ∀ (f₁ f₂ : Nat) (s : List Char) (acc : List (String × String)),
    s.length ≤ f₁ → s.length ≤ f₂ → attrScanF f₁ s acc = attrScanF f₂ s acc := by
  intro f₁
  induction f₁ with
  | zero =>
    intro f₂ s acc h₁ _
    have hs : s = [] := List.length_eq_zero.mp (Nat.le_zero.mp h₁)
    subst hs
    rw [attrScanF_nil, attrScanF_nil]
  | succ f₁' ih =>
    intro f₂ s acc h₁ h₂
    cases f₂ with
    | zero =>
      have hs : s = [] := List.length_eq_zero.mp (Nat.le_zero.mp h₂)
      subst hs
      rw [attrScanF_nil, attrScanF_nil]
    | succ f₂' =>
      rw [attrScanF_succ, attrScanF_succ]
      cases hm : matchAttrAt s with
      | some kvn =>
        obtain ⟨k, v, n⟩ := kvn
        have hb := matchAttrAt_bounds hm
        exact ih f₂' (s.drop n) (objSet acc k v)
          (by simp only [List.length_drop]; omega)
          (by simp only [List.length_drop]; omega)
      | none =>
        cases s with
        | nil => rfl
        | cons c rest =>
          exact ih f₂' rest acc (by simp at h₁ ⊢; omega) (by simp at h₂ ⊢; omega)

/-- The one-step unfolding of the attribute-scanning loop. -/
theorem attrScan_eq (s : List Char) (acc : List (String × String)) :
    attrScan s acc =
      match matchAttrAt s with
      | some (k, v, n) => attrScan (s.drop n) (objSet acc k v)
      | none =>
        match s with
        | [] => acc
        | _ :: rest => attrScan rest acc := by
  unfold attrScan
  cases hs : s with
  | nil => rw [attrScanF_nil]; rfl
  | cons c rest =>
    rw [List.length_cons, attrScanF_succ]
    cases hm : matchAttrAt (c :: rest) with
    | some kvn =>
      obtain ⟨k, v, n⟩ := kvn
      have hb := matchAttrAt_bounds hm
      exact attrScanF_mono _ _ _ _ (by simp; omega) (by simp)
    | none => exact attrScanF_mono _ _ _ _ (by simp) (by simp)

theorem attrMatchListF_nil (f : Nat) : attrMatchListF f [] = [] := by
  cases f <;> rfl

theorem attrMatchListF_succ (f : Nat) (s : List Char) :
    attrMatchListF (f + 1) s =
      match matchAttrAt s with
      | some (k, v, n) => (k, v) :: attrMatchListF f (s.drop n)
      | none =>
        match s with
        | [] => []
        | _ :: rest => attrMatchListF f rest := rfl

theorem attrMatchListF_mono : ∀ (f₁ f₂ : Nat) (s : List Char),
    s.length ≤ f₁ → s.length ≤ f₂ → attrMatchListF f₁ s = attrMatchListF f₂ s := by
  intro f₁
  induction f₁ with
  | zero =>
    intro f₂ s h₁ _
    have hs : s = [] := List.length_eq_zero.mp (Nat.le_zero.mp h₁)
    subst hs
    rw [attrMatchListF_nil, attrMatchListF_nil]
  | succ f₁' ih =>
    intro f₂ s h₁ h₂
    cases f₂ with
    | zero =>
      have hs : s = [] := List.length_eq_zero.mp (Nat.le_zero.mp h₂)
      subst hs
      rw [attrMatchListF_nil, attrMatchListF_nil]
    | succ f₂' =>
      rw [attrMatchListF_succ, attrMatchListF_succ]
      cases hm : matchAttrAt s with
      | some kvn =>
        obtain ⟨k, v, n⟩ := kvn
        have hb := matchAttrAt_bounds hm
        exact congrArg (List.cons (k, v)) (ih f₂' (s.drop n)
          (by simp only [List.length_drop]; omega)
          (by simp only [List.length_drop]; omega))
      | none =>
        cases s with
        | nil => rfl
        | cons c rest =>
          exact ih f₂' rest (by simp at h₁ ⊢; omega) (by simp at h₂ ⊢; omega)

/-- The one-step unfolding of the raw match sequence. -/
theorem attrMatchList_eq (s : List Char) :
    attrMatchList s =
      match matchAttrAt s with
      | some (k, v, n) => (k, v) :: attrMatchList (s.drop n)
      | none =>
        match s with
        | [] => []
        | _ :: rest => attrMatchList rest := by
  unfold attrMatchList
  cases hs : s with
  | nil => rw [attrMatchListF_nil]; rfl
  | cons c rest =>
    rw [List.length_cons, attrMatchListF_succ]
    cases hm : matchAttrAt (c :: rest) with
    | some kvn =>
      obtain ⟨k, v, n⟩ := kvn
      have hb := matchAttrAt_bounds hm
      exact congrArg (List.cons (k, v)) (attrMatchListF_mono _ _ _ (by simp; omega) (by simp))
    | none => exact attrMatchListF_mono _ _ _ (by simp) (by simp)

/-! ### Chunk composition lemmas -/

theorem writeChunk_foldl_acc (chunk : List Char) (p : ParserS) (evs : List Event) :
    chunk.foldl (fun acc c => let r := processChar acc.1 c; (r.1, acc.2 ++ r.2)) (p, evs)
      = ((writeChunk p chunk).1, evs ++ (writeChunk p chunk).2) := by
  induction chunk generalizing p evs with
  | nil => simp [writeChunk]
  | cons c cs ih =>
    simp only [writeChunk, List.foldl_cons] at ih ⊢
    rw [ih ((processChar p c).1) (evs ++ (processChar p c).2),
      ih ((processChar p c).1) ([] ++ (processChar p c).2)]
    simp

theorem writeChunk_append (p : ParserS) (a b : List Char) :
    writeChunk p (a ++ b)
      = ((writeChunk (writeChunk p a).1 b).1,
         (writeChunk p a).2 ++ (writeChunk (writeChunk p a).1 b).2) := by
  have : writeChunk p (a ++ b)
      = (a ++ b).foldl (fun acc c => let r := processChar acc.1 c; (r.1, acc.2 ++ r.2)) (p, []) := rfl
  rw [this, List.foldl_append]
  rw [show (a.foldl (fun acc c => let r := processChar acc.1 c; (r.1, acc.2 ++ r.2)) (p, []))
      = writeChunk p a from rfl]
  obtain ⟨q, evs⟩ := writeChunk p a
  exact writeChunk_foldl_acc b q evs

theorem writeChunks_foldl_acc (chunks : List (List Char)) (p : ParserS) (evs : List Event) :
    chunks.foldl (fun acc ch => let r := writeChunk acc.1 ch; (r.1, acc.2 ++ r.2)) (p, evs)
      = ((writeChunks p chunks).1, evs ++ (writeChunks p chunks).2) := by
  induction chunks generalizing p evs with
  | nil => simp [writeChunks]
  | cons ch t ih =>
    simp only [writeChunks, List.foldl_cons] at ih ⊢
    rw [ih ((writeChunk p ch).1) (evs ++ (writeChunk p ch).2),
      ih ((writeChunk p ch).1) ([] ++ (writeChunk p ch).2)]
    simp

theorem writeChunks_eq_join (p : ParserS) (chunks : List (List Char)) :
    writeChunks p chunks = writeChunk p chunks.flatten := by
  induction chunks generalizing p with
  | nil => simp [writeChunks, writeChunk]
  | cons ch t ih =>
    have hl : writeChunks p (ch :: t)
        = ((writeChunks (writeChunk p ch).1 t).1,
           (writeChunk p ch).2 ++ (writeChunks (writeChunk p ch).1 t).2) := by
      simp only [writeChunks, List.foldl_cons]
      rw [writeChunks_foldl_acc t ((writeChunk p ch).1) ([] ++ (writeChunk p ch).2)]
      simp [writeChunks]
    rw [hl, List.flatten_cons, writeChunk_append, ih]

/-! ### C1: chunk-boundary invariance -/

/-- C1: for every input character sequence and every partition of it into
consecutive chunks, feeding the chunks one at a time to a fresh tokenizer
produces exactly the same final state and the same event sequence (same
events, same order, same payloads) as feeding the whole sequence as one
chunk to a fresh tokenizer. -/
theorem chunk_boundary_invariance (chunks : List (List Char)) :
    writeChunks initialParser chunks = writeChunk initialParser chunks.flatten :=
  writeChunks_eq_join initialParser chunks

/-! ### C5: no flush at end of input -/

/-- C5: the end-of-input signal triggers no flush and produces no events of
any kind, for every tokenizer state; in particular, after feeding
`<a>hello`, the pending trailing text `hello` is never emitted — the only
event of the whole run, end-of-input included, is the `opentag`. -/
theorem end_of_input_no_flush :
    (∀ p : ParserS, endInput p = (p, [])) ∧
      (writeChunk initialParser ("<a>hello".data)).2
          ++ (endInput (writeChunk initialParser ("<a>hello".data)).1).2
        = [Event.opentag (some "a") []] := by
  constructor
  · intro p; rfl
  · decide

/-! ### Buffer/cursor bookkeeping lemmas -/

theorem jsSliceFrom_neg_one (l : List Char) :
    jsSliceFrom l (-1) = l.drop (l.length - 1) := by
  simp only [jsSliceFrom, jsSlice]
  rw [if_pos (by norm_num : (-1 : Int) < 0),
    if_neg (by omega : ¬ ((l.length : Int) < 0)), min_self]
  have h2 : ((l.length : Int)).toNat = l.length := Int.toNat_natCast _
  have h3 : (max ((l.length : Int) + -1) 0).toNat = l.length - 1 := by omega
  rw [h2, h3, List.take_length]

theorem endRecording_fst (p : ParserS) :
    (endRecording p).1
      = { p with buffer := p.buffer.drop (p.buffer.length - 1), pos := 1 } := by
  simp only [endRecording, jsSliceFrom_neg_one]

theorem endRecording_reset (p : ParserS) (h : p.buffer ≠ []) :
    (endRecording p).1.pos = 1 ∧ (endRecording p).1.buffer.length = 1 := by
  rw [endRecording_fst]
  refine ⟨rfl, ?_⟩
  have hl : 1 ≤ p.buffer.length := List.length_pos.mpr h
  simp only [List.length_drop]
  omega

theorem endRecording_ok (p : ParserS) (h : p.buffer ≠ []) :
    (endRecording p).1.pos = (endRecording p).1.buffer.length ∧
      (endRecording p).1.buffer ≠ [] := by
  obtain ⟨h1, h2⟩ := endRecording_reset p h
  refine ⟨by rw [h1, h2], ?_⟩
  intro hc
  rw [hc] at h2
  simp at h2

/-- The invariant preservation facts for each recording handler: the handlers
built on `_endRecording` restore `pos = buffer.length` unconditionally (and a
nonempty buffer), while the two handlers that do not touch the buffer
preserve it. -/
theorem onStartNewTag_inv (p : ParserS) (h : p.buffer ≠ []) :
    (onStartNewTag p).1.pos = (onStartNewTag p).1.buffer.length ∧
      (onStartNewTag p).1.buffer ≠ [] := by
  have := endRecording_ok p h
  simp only [onStartNewTag]
  exact this

theorem onTagCompleted_inv (p : ParserS) (h : p.buffer ≠ []) :
    (onTagCompleted p).1.pos = (onTagCompleted p).1.buffer.length ∧
      (onTagCompleted p).1.buffer ≠ [] := by
  have := endRecording_ok p h
  simp only [onTagCompleted]
  exact this

theorem onCloseTagStart_inv (p : ParserS) (h : p.buffer ≠ []) :
    (onCloseTagStart p).pos = (onCloseTagStart p).buffer.length ∧
      (onCloseTagStart p).buffer ≠ [] := by
  have := endRecording_ok p h
  simp only [onCloseTagStart]
  exact this

theorem onStartInstruction_inv (p : ParserS) (h : p.buffer ≠ []) :
    (onStartInstruction p).pos = (onStartInstruction p).buffer.length ∧
      (onStartInstruction p).buffer ≠ [] := by
  have := endRecording_ok p h
  simp only [onStartInstruction]
  exact this

theorem onEndInstruction_inv (p : ParserS) (h : p.buffer ≠ []) :
    (onEndInstruction p).1.pos = (onEndInstruction p).1.buffer.length ∧
      (onEndInstruction p).1.buffer ≠ [] := by
  have := endRecording_ok { p with pos := p.pos - 1 } h
  simp only [onEndInstruction]
  exact this

theorem onCDATAStart_inv (p : ParserS) (h : p.buffer ≠ []) :
    (onCDATAStart p).pos = (onCDATAStart p).buffer.length ∧
      (onCDATAStart p).buffer ≠ [] := by
  have := endRecording_ok p h
  simp only [onCDATAStart]
  exact this

theorem onCDATAEnd_inv (p : ParserS) (h : p.buffer ≠ []) :
    (onCDATAEnd p).1.pos = (onCDATAEnd p).1.buffer.length ∧
      (onCDATAEnd p).1.buffer ≠ [] := by
  have := endRecording_ok p h
  simp only [onCDATAEnd]
  exact this

theorem onCommentEnd_inv (p : ParserS) (h : p.buffer ≠ []) :
    (onCommentEnd p).pos = (onCommentEnd p).buffer.length ∧
      (onCommentEnd p).buffer ≠ [] := by
  have := endRecording_ok p h
  simp only [onCommentEnd]
  exact this

theorem tagTypeUpdate_inv (q : ParserS) (t : TAG_TYPE)
    (hq : q.pos = q.buffer.length ∧ q.buffer ≠ []) :
    ({ q with tagType := t } : ParserS).pos
        = ({ q with tagType := t } : ParserS).buffer.length ∧
      ({ q with tagType := t } : ParserS).buffer ≠ [] := by
  simpa using hq

theorem onCommentStart_inv (q : ParserS)
    (hq : q.pos = q.buffer.length ∧ q.buffer ≠ []) :
    (onCommentStart q).pos = (onCommentStart q).buffer.length ∧
      (onCommentStart q).buffer ≠ [] := by
  simpa [onCommentStart] using hq

/-- Threading the invariant through one guarded handler of the sequential
`if` chain in the `TAG_NAME` case. -/
theorem inv_ite (b : Prop) [Decidable b] (f : ParserS → ParserS) (q : ParserS)
    (hf : q.pos = q.buffer.length ∧ q.buffer ≠ [] →
      (f q).pos = (f q).buffer.length ∧ (f q).buffer ≠ [])
    (hq : q.pos = q.buffer.length ∧ q.buffer ≠ []) :
    (if b then f q else q).pos = (if b then f q else q).buffer.length ∧
      (if b then f q else q).buffer ≠ [] := by
  split
  · exact hf hq
  · exact hq

theorem processChar_inv (p : ParserS) (c : Char)
    (h : p.pos = p.buffer.length) :
    (processChar p c).1.pos = (processChar p c).1.buffer.length := by
  obtain ⟨st, buf, pos, tt⟩ := p
  simp only at h
  cases st with
  | TEXT =>
    simp only [processChar]
    split
    · refine (onStartNewTag_inv _ ?_).1
      simp
    · simp [h]
  | TAG_NAME =>
    simp only [processChar]
    split
    · -- c == '>': the completion handler runs on the chained state
      refine (onTagCompleted_inv _ ?_).1
      refine
        (inv_ite _ (fun q => { q with tagType := TAG_TYPE.SELF_CLOSING }) _
          (fun hq => tagTypeUpdate_inv _ _ hq) ?_).2
      refine inv_ite _ _ _ (fun hq => onCommentStart_inv _ hq) ?_
      refine inv_ite _ _ _ (fun hq => onCDATAStart_inv _ hq.2) ?_
      refine inv_ite _ _ _ (fun hq => onCloseTagStart_inv _ hq.2) ?_
      refine inv_ite _ _ _ (fun hq => onStartInstruction_inv _ hq.2) ?_
      exact ⟨by simp [h], by simp⟩
    · -- any other character: the chained state is returned unchanged
      refine (inv_ite _ _ _ (fun hq => onCommentStart_inv _ hq) ?_).1
      refine inv_ite _ _ _ (fun hq => onCDATAStart_inv _ hq.2) ?_
      refine inv_ite _ _ _ (fun hq => onCloseTagStart_inv _ hq.2) ?_
      refine inv_ite _ _ _ (fun hq => onStartInstruction_inv _ hq.2) ?_
      exact ⟨by simp [h], by simp⟩
  | INSTRUCTION =>
    simp only [processChar]
    split
    · refine (onEndInstruction_inv _ ?_).1
      simp
    · simp [h]
  | CDATA =>
    simp only [processChar]
    split
    · refine (onCDATAEnd_inv _ ?_).1
      simp
    · simp [h]
  | IGNORE_COMMENT =>
    simp only [processChar]
    split
    · refine (onCommentEnd_inv _ ?_).1
      simp
    · simp [h]

/-! ### C9: the position cursor always equals the buffer length -/

/-- C9: at every point between the processing of two consecutive input
characters, the position cursor equals the length of the recording buffer:
both start at 0 in the fresh parser, processing a character preserves the
equality (the character is appended and the cursor incremented together),
and every end-of-recording resets the buffer to a single character and the
cursor to 1 together. -/
theorem pos_tracks_buffer :
    initialParser.pos = initialParser.buffer.length ∧
      (∀ (p : ParserS) (c : Char), p.pos = p.buffer.length →
        (processChar p c).1.pos = (processChar p c).1.buffer.length) ∧
      (∀ p : ParserS, p.buffer ≠ [] →
        (endRecording p).1.buffer.length = 1 ∧ (endRecording p).1.pos = 1) := by
  refine ⟨rfl, processChar_inv, ?_⟩
  intro p h
  obtain ⟨h1, h2⟩ := endRecording_reset p h
  exact ⟨h2, h1⟩

/-- Witness for C9 at a concrete state: one processing step from the fresh
parser and one explicit end-of-recording. -/
theorem pos_tracks_buffer_witness :
    (processChar initialParser '<').1.pos
        = (processChar initialParser '<').1.buffer.length ∧
      (endRecording (ParserS.mk STATE.TEXT ['<', 'a'] 2 TAG_TYPE.OPENING)).1.buffer.length = 1 := by
  constructor
  · exact pos_tracks_buffer.2.1 initialParser '<' rfl
  · exact (pos_tracks_buffer.2.2 (ParserS.mk STATE.TEXT ['<', 'a'] 2 TAG_TYPE.OPENING) (by simp)).1

/-! ### C8: comments are fully ignored -/

/-- C8: while the tokenizer is in the comment-skipping state, no event of
any kind is emitted for any character; the state stays `IGNORE_COMMENT`
until the closing `-->` lookback fires, at which point the recorded content
is discarded and the state returns to `Text`.  On the spec's example
`<!-- ignored --><a/>` the whole run emits only the two self-closing events
for `a`. -/
theorem comments_produce_no_events :
    (∀ (p : ParserS) (c : Char), p.state = STATE.IGNORE_COMMENT →
        (processChar p c).2 = [] ∧
          ((processChar p c).1.state = STATE.TEXT ∨
            (processChar p c).1.state = STATE.IGNORE_COMMENT)) ∧
      (∀ (p : ParserS) (c : Char), p.state = STATE.IGNORE_COMMENT →
        jsIdx (p.buffer ++ [c]) (((p.pos + 1 : Nat) : Int) - 3) = some '-' →
        jsIdx p.buffer ((p.pos : Int) - 1) = some '-' → c = '>' →
        (processChar p c).1.state = STATE.TEXT) ∧
      (writeChunk initialParser ("<!-- ignored --><a/>".data)).2
        = [Event.opentag (some "a") selfClosingAttrs,
           Event.closetag (some "a") selfClosingAttrs] := by
  refine ⟨?_, ?_, by decide⟩
  · intro p c hs
    obtain ⟨st, buf, pos, tt⟩ := p
    simp only at hs
    subst hs
    simp only [processChar]
    split
    · exact ⟨rfl, Or.inl rfl⟩
    · exact ⟨rfl, Or.inr rfl⟩
  · intro p c hs h3 h1 hc
    obtain ⟨st, buf, pos, tt⟩ := p
    simp only at hs h3 h1
    subst hs
    subst hc
    simp only [processChar]
    rw [if_pos]
    · rfl
    · simp only [h3, h1]
      simp

/-- Witness for C8: a concrete mid-comment state where a character produces
no event, and a concrete state where the closing `>` of `-->` returns the
tokenizer to the `Text` state. -/
theorem comments_produce_no_events_witness :
    (processChar (ParserS.mk STATE.IGNORE_COMMENT ("<!-".data) 3 TAG_TYPE.OPENING) 'x').2 = []
      ∧ (processChar (ParserS.mk STATE.IGNORE_COMMENT ("<!--xx--".data) 8 TAG_TYPE.OPENING) '>').1.state
          = STATE.TEXT := by
  constructor
  · exact (comments_produce_no_events.1
      (ParserS.mk STATE.IGNORE_COMMENT ("<!-".data) 3 TAG_TYPE.OPENING) 'x' rfl).1
  · exact comments_produce_no_events.2.1
      (ParserS.mk STATE.IGNORE_COMMENT ("<!--xx--".data) 8 TAG_TYPE.OPENING) '>'
      rfl (by decide) (by decide) rfl

/-! ### C6: text events carry exactly the nonempty trimmed pending run -/

theorem text_notin_onTagCompleted (q : ParserS) (s : String) :
    Event.text s ∉ (onTagCompleted q).2 := by
  simp only [onTagCompleted]
  split_ifs <;> simp

theorem text_notin_onEndInstruction (q : ParserS) (s : String) :
    Event.text s ∉ (onEndInstruction q).2 := by
  simp only [onEndInstruction]
  split_ifs <;> simp

theorem text_notin_onCDATAEnd (q : ParserS) (s : String) :
    Event.text s ∉ (onCDATAEnd q).2 := by
  simp only [onCDATAEnd]
  simp

/-- C6: a `text` event is emitted by a processing step exactly when the step
is the `<` transition out of the `Text` state and the recorded text run
trims to something nonempty; its payload is then that trimmed run.  In
particular every emitted `text` payload is a nonempty trimmed string, and a
whitespace-only run produces no `text` event. -/
theorem text_event_iff_trimmed_nonempty :
    ∀ (p : ParserS) (c : Char) (s : String),
      Event.text s ∈ (processChar p c).2 ↔
        (p.state = STATE.TEXT ∧ c = '<' ∧
          s = String.mk (jsTrim (recAfter p c)) ∧ jsTrim (recAfter p c) ≠ []) := by
  intro p c s
  obtain ⟨st, buf, pos, tt⟩ := p
  cases st with
  | TEXT =>
    simp only [processChar, onStartNewTag, endRecording, recAfter]
    split
    · rename_i hc
      have hc' : c = '<' := by simpa using hc
      subst hc'
      split
      · rename_i hemp
        simp only [List.not_mem_nil, false_iff]
        intro hrhs
        exact hrhs.2.2.2 (by simpa using hemp)
      · rename_i hemp
        simp only [List.mem_singleton, Event.text.injEq]
        constructor
        · intro hs
          exact ⟨by trivial, by trivial, hs, by simpa using hemp⟩
        · intro hrhs
          exact hrhs.2.2.1
    · rename_i hc
      simp only [List.not_mem_nil, false_iff]
      intro hrhs
      exact hc (by simp [hrhs.2.1])
  | TAG_NAME =>
    simp only [processChar]
    constructor
    · intro hm
      exfalso
      split at hm
      · exact text_notin_onTagCompleted _ s hm
      · simp at hm
    · intro hrhs
      exact absurd hrhs.1 (by simp)
  | INSTRUCTION =>
    simp only [processChar]
    constructor
    · intro hm
      exfalso
      split at hm
      · exact text_notin_onEndInstruction _ s hm
      · simp at hm
    · intro hrhs
      exact absurd hrhs.1 (by simp)
  | CDATA =>
    simp only [processChar]
    constructor
    · intro hm
      exfalso
      split at hm
      · exact text_notin_onCDATAEnd _ s hm
      · simp at hm
    · intro hrhs
      exact absurd hrhs.1 (by simp)
  | IGNORE_COMMENT =>
    simp only [processChar]
    constructor
    · intro hm
      exfalso
      split at hm
      · simp at hm
      · simp at hm
    · intro hrhs
      exact absurd hrhs.1 (by simp)

/-- Witness for C6: a concrete step that emits `text "hello"` (a trimmed
nonempty run), produced by applying the characterization backwards, and a
concrete whitespace-only run producing no `text` event. -/
theorem text_event_iff_trimmed_nonempty_witness :
    Event.text "hello"
        ∈ (processChar (ParserS.mk STATE.TEXT (">  hello ".data) 9 TAG_TYPE.NONE) '<').2
      ∧ (writeChunk initialParser ("<a>   </a>".data)).2
          = [Event.opentag (some "a") [], Event.closetag (some "a") []] := by
  constructor
  · exact (text_event_iff_trimmed_nonempty
      (ParserS.mk STATE.TEXT (">  hello ".data) 9 TAG_TYPE.NONE) '<' "hello").mpr
      (by decide)
  · decide

/-! ### C2: self-closing tags emit an opentag/closetag pair -/

theorem parseTagString_none_snd {s : List Char}
    (h : (parseTagString s).1 = none) : (parseTagString s).2 = [] := by
  by_cases h1 : (s.takeWhile isNameChar).isEmpty = true
  · simp [parseTagString, h1]
  · by_cases h2 : nameEndOk s (s.takeWhile isNameChar).length = true
    · exfalso
      simp [parseTagString, h1, h2] at h
    · simp [parseTagString, h1, h2]

/-- C2: whenever a tag is completed with `/` immediately before `>` in the
`TAG_NAME` state, the step emits an `opentag` event immediately followed by
a `closetag` event with the same name and the same attribute mapping
(preceded by an error event exactly when the name parse failed); the shared
mapping is the reserved marker `{___selfClosing___: true}` when the parsed
mapping is empty, and the parsed mapping unchanged (no marker added)
otherwise. -/
theorem selfclosing_open_close_pair (p : ParserS)
    (hs : p.state = STATE.TAG_NAME)
    (hp : jsIdx p.buffer ((p.pos : Int) - 1) = some '/')
    (n : Option String) (ats : List (String × String)) (A : Attrs)
    (hpr : parseTagString (recAfter p '>') = (n, ats))
    (hA : A = if ats = [] then selfClosingAttrs else toAttrs ats) :
    (processChar p '>').2
      = (if n = none then
          [Event.error ("Failed to parse name for tag" ++ String.mk (recAfter p '>'))]
        else [])
        ++ [Event.opentag n A, Event.closetag n A]
      ∧ (ats ≠ [] → A = toAttrs ats) := by
  refine ⟨?_, fun hne => by rw [hA, if_neg hne]⟩
  obtain ⟨st, buf, pos, tt⟩ := p
  simp only at hs hp
  simp only [recAfter] at hpr
  subst hs
  have e1 : (('>' : Char) == '?') = false := rfl
  have e2 : (('>' : Char) == '/') = false := rfl
  have e3 : (('>' : Char) == '[') = false := rfl
  have e4 : (('>' : Char) == '-') = false := rfl
  have e5 : (('>' : Char) == '>') = true := rfl
  simp only [processChar, e1, e2, e3, e4, e5, Bool.and_false, Bool.and_true,
    Bool.false_eq_true, if_false, if_true, hp]
  rw [if_pos (by simp)]
  simp only [onTagCompleted, endRecording]
  rw [hpr]
  simp only [toAttrs]
  rcases n with _ | nm
  · simp only [if_pos rfl]
    rcases ats with _ | ⟨a, rest⟩
    · simp [selfClosingAttrs, hA, recAfter]
    · simp only [hA]
      simp [toAttrs, recAfter]
  · simp only [reduceCtorEq, if_neg]
    rcases ats with _ | ⟨a, rest⟩
    · simp [selfClosingAttrs, hA, recAfter]
    · simp only [hA]
      simp [toAttrs, recAfter]

/-- Witness for C2: completing `<a/` with `>` emits exactly
`opentag("a", marker)` then `closetag("a", marker)`. -/
theorem selfclosing_open_close_pair_witness :
    (processChar (ParserS.mk STATE.TAG_NAME ("<a/".data) 3 TAG_TYPE.OPENING) '>').2
      = [Event.opentag (some "a") selfClosingAttrs,
         Event.closetag (some "a") selfClosingAttrs] := by
  have h := selfclosing_open_close_pair
    (ParserS.mk STATE.TAG_NAME ("<a/".data) 3 TAG_TYPE.OPENING) rfl (by decide)
    (some "a") [] selfClosingAttrs (by decide) (by decide)
  simpa using h.1

/-! ### C4 (corrected): name-parse failures emit an error event and degrade -/

/-- C4 counterexample: `</>` is a completed tag (its `/` stands immediately
before `>`) whose name parse fails, and the run emits the error event plus
an `opentag`/`closetag` pair carrying the `___selfClosing___` marker — not
the recovered (empty) attribute mapping that the claim, as stated, says the
degraded events use. -/
theorem name_parse_failure_selfclosing_marker :
    (writeChunk initialParser ("</>".data)).2
        = [Event.error "Failed to parse name for tag",
           Event.opentag none selfClosingAttrs, Event.closetag none selfClosingAttrs]
      ∧ (writeChunk initialParser ("</>".data)).2
          ≠ [Event.error "Failed to parse name for tag",
             Event.opentag none (toAttrs []), Event.closetag none (toAttrs [])] :=
  ⟨by decide, by decide⟩

/-- C4 (amended): when the tag-string parser returns an absent name for a
completed tag or instruction, the step emits an `error` event whose message
is the fixed prefix followed by the offending raw tag/instruction text,
still emits the corresponding structural event(s) with the absent name, and
resumes in the `Text` state (the embedding is total, so no exception can be
raised).  Opening and closing completions and instructions carry the
recovered (empty) attribute mapping; a completion with `/` immediately
before `>` instead emits the `opentag`/`closetag` pair carrying the
`___selfClosing___` marker, because the empty recovered mapping triggers the
self-closing replacement. -/
theorem name_parse_failure_recovery :
    (∀ p : ParserS, p.state = STATE.TAG_NAME →
      jsIdx p.buffer ((p.pos : Int) - 1) ≠ some '/' →
      p.tagType = TAG_TYPE.OPENING →
      (parseTagString (recAfter p '>')).1 = none →
      (processChar p '>').2
          = [Event.error ("Failed to parse name for tag" ++ String.mk (recAfter p '>')),
             Event.opentag none []]
        ∧ (processChar p '>').1.state = STATE.TEXT) ∧
    (∀ p : ParserS, p.state = STATE.TAG_NAME →
      jsIdx p.buffer ((p.pos : Int) - 1) ≠ some '/' →
      p.tagType = TAG_TYPE.CLOSING →
      (parseTagString (recAfter p '>')).1 = none →
      (processChar p '>').2
          = [Event.error ("Failed to parse name for tag" ++ String.mk (recAfter p '>')),
             Event.closetag none []]
        ∧ (processChar p '>').1.state = STATE.TEXT) ∧
    (∀ p : ParserS, p.state = STATE.TAG_NAME →
      jsIdx p.buffer ((p.pos : Int) - 1) = some '/' →
      (parseTagString (recAfter p '>')).1 = none →
      (processChar p '>').2
          = [Event.error ("Failed to parse name for tag" ++ String.mk (recAfter p '>')),
             Event.opentag none selfClosingAttrs, Event.closetag none selfClosingAttrs]
        ∧ (processChar p '>').1.state = STATE.TEXT) ∧
    (∀ p : ParserS, p.state = STATE.INSTRUCTION →
      jsIdx p.buffer ((p.pos : Int) - 1) = some '?' →
      (parseTagString (instRecAfter p '>')).1 = none →
      (processChar p '>').2
          = [Event.error ("Failed to parse name for inst" ++ String.mk (instRecAfter p '>')),
             Event.instruction none []]
        ∧ (processChar p '>').1.state = STATE.TEXT) := by
  refine ⟨?_, ?_, ?_, ?_⟩
  · intro p hs hp ht hfail
    have hsnd := parseTagString_none_snd hfail
    obtain ⟨st, buf, pos, tt⟩ := p
    simp only at hs hp ht
    simp only [recAfter] at hfail hsnd
    subst hs
    subst ht
    have e1 : (('>' : Char) == '?') = false := rfl
    have e2 : (('>' : Char) == '/') = false := rfl
    have e3 : (('>' : Char) == '[') = false := rfl
    have e4 : (('>' : Char) == '-') = false := rfl
    have e5 : (('>' : Char) == '>') = true := rfl
    simp only [processChar, e1, e2, e3, e4, e5, Bool.and_false, Bool.and_true,
      Bool.false_eq_true, if_false, if_true]
    rw [if_neg (by simpa using hp)]
    simp only [onTagCompleted, endRecording]
    have hpr : parseTagString (jsSlice (buf ++ ['>']) 1 (((pos + 1 : Nat) : Int) - 1))
        = (none, []) := by
      rcases hq : parseTagString (jsSlice (buf ++ ['>']) 1 (((pos + 1 : Nat) : Int) - 1))
        with ⟨n, ats⟩
      rw [hq] at hfail hsnd
      simp at hfail hsnd
      rw [hfail, hsnd]
    rw [hpr]
    constructor
    · simp [toAttrs, recAfter]
    · trivial
  · intro p hs hp ht hfail
    have hsnd := parseTagString_none_snd hfail
    obtain ⟨st, buf, pos, tt⟩ := p
    simp only at hs hp ht
    simp only [recAfter] at hfail hsnd
    subst hs
    subst ht
    have e1 : (('>' : Char) == '?') = false := rfl
    have e2 : (('>' : Char) == '/') = false := rfl
    have e3 : (('>' : Char) == '[') = false := rfl
    have e4 : (('>' : Char) == '-') = false := rfl
    have e5 : (('>' : Char) == '>') = true := rfl
    simp only [processChar, e1, e2, e3, e4, e5, Bool.and_false, Bool.and_true,
      Bool.false_eq_true, if_false, if_true]
    rw [if_neg (by simpa using hp)]
    simp only [onTagCompleted, endRecording]
    have hpr : parseTagString (jsSlice (buf ++ ['>']) 1 (((pos + 1 : Nat) : Int) - 1))
        = (none, []) := by
      rcases hq : parseTagString (jsSlice (buf ++ ['>']) 1 (((pos + 1 : Nat) : Int) - 1))
        with ⟨n, ats⟩
      rw [hq] at hfail hsnd
      simp at hfail hsnd
      rw [hfail, hsnd]
    rw [hpr]
    constructor
    · simp [toAttrs, recAfter]
    · trivial
  · intro p hs hp hfail
    have hsnd := parseTagString_none_snd hfail
    obtain ⟨st, buf, pos, tt⟩ := p
    simp only at hs hp
    simp only [recAfter] at hfail hsnd
    subst hs
    have e1 : (('>' : Char) == '?') = false := rfl
    have e2 : (('>' : Char) == '/') = false := rfl
    have e3 : (('>' : Char) == '[') = false := rfl
    have e4 : (('>' : Char) == '-') = false := rfl
    have e5 : (('>' : Char) == '>') = true := rfl
    simp only [processChar, e1, e2, e3, e4, e5, Bool.and_false, Bool.and_true,
      Bool.false_eq_true, if_false, if_true, hp]
    rw [if_pos (by simp)]
    simp only [onTagCompleted, endRecording]
    have hpr : parseTagString (jsSlice (buf ++ ['>']) 1 (((pos + 1 : Nat) : Int) - 1))
        = (none, []) := by
      rcases hq : parseTagString (jsSlice (buf ++ ['>']) 1 (((pos + 1 : Nat) : Int) - 1))
        with ⟨n, ats⟩
      rw [hq] at hfail hsnd
      simp at hfail hsnd
      rw [hfail, hsnd]
    rw [hpr]
    constructor
    · simp [toAttrs, recAfter, selfClosingAttrs]
    · trivial
  · intro p hs hp hfail
    have hsnd := parseTagString_none_snd hfail
    obtain ⟨st, buf, pos, tt⟩ := p
    simp only at hs hp
    simp only [instRecAfter] at hfail hsnd
    subst hs
    have e5 : (('>' : Char) == '>') = true := rfl
    simp only [processChar, e5, Bool.and_true, hp]
    rw [if_pos (by simp)]
    simp only [onEndInstruction, endRecording]
    have hpr : parseTagString (jsSlice (buf ++ ['>']) 1 (((pos + 1 - 1 : Nat) : Int) - 1))
        = (none, []) := by
      rcases hq : parseTagString (jsSlice (buf ++ ['>']) 1 (((pos + 1 - 1 : Nat) : Int) - 1))
        with ⟨n, ats⟩
      rw [hq] at hfail hsnd
      simp at hfail hsnd
      rw [hfail, hsnd]
    rw [hpr]
    constructor
    · simp [toAttrs, instRecAfter]
    · trivial

/-- Witness for C4: completing the empty tag `<>`, the whitespace-only
closing tag `</ >`, the empty self-closing completion `</>` and the empty
instruction `<??>` each yield the error event plus the degraded structural
event(s). -/
theorem name_parse_failure_recovery_witness :
    (processChar (ParserS.mk STATE.TAG_NAME ("<".data) 1 TAG_TYPE.OPENING) '>').2
        = [Event.error "Failed to parse name for tag", Event.opentag none []]
      ∧ (processChar (ParserS.mk STATE.TAG_NAME ("/ ".data) 2 TAG_TYPE.CLOSING) '>').2
          = [Event.error "Failed to parse name for tag ", Event.closetag none []]
      ∧ (processChar (ParserS.mk STATE.TAG_NAME ("/".data) 1 TAG_TYPE.CLOSING) '>').2
          = [Event.error "Failed to parse name for tag",
             Event.opentag none selfClosingAttrs, Event.closetag none selfClosingAttrs]
      ∧ (processChar (ParserS.mk STATE.INSTRUCTION ("??".data) 2 TAG_TYPE.OPENING) '>').2
          = [Event.error "Failed to parse name for inst", Event.instruction none []] := by
  refine ⟨?_, ?_, ?_, ?_⟩
  · have h := name_parse_failure_recovery.1
      (ParserS.mk STATE.TAG_NAME ("<".data) 1 TAG_TYPE.OPENING) rfl (by decide) rfl (by decide)
    simpa using h.1
  · have h := name_parse_failure_recovery.2.1
      (ParserS.mk STATE.TAG_NAME ("/ ".data) 2 TAG_TYPE.CLOSING) rfl (by decide) rfl (by decide)
    simpa using h.1
  · have h := name_parse_failure_recovery.2.2.1
      (ParserS.mk STATE.TAG_NAME ("/".data) 1 TAG_TYPE.CLOSING) rfl (by decide) (by decide)
    simpa using h.1
  · have h := name_parse_failure_recovery.2.2.2
      (ParserS.mk STATE.INSTRUCTION ("??".data) 2 TAG_TYPE.OPENING) rfl (by decide) (by decide)
    simpa using h.1

/-! ### Object-assignment lemmas for the attribute mapping -/

theorem attrScan_eq_foldN : ∀ (N : Nat) (s : List Char), s.length ≤ N →
    ∀ acc, attrScan s acc
      = (attrMatchList s).foldl (fun m kv => objSet m kv.1 kv.2) acc := by
  intro N
  induction N with
  | zero =>
    intro s hN acc
    have hs : s = [] := List.length_eq_zero.mp (Nat.le_zero.mp hN)
    subst hs
    rw [attrScan_eq, attrMatchList_eq]
    rfl
  | succ N ih =>
    intro s hN acc
    rw [attrScan_eq, attrMatchList_eq]
    cases hm : matchAttrAt s with
    | some kvn =>
      obtain ⟨k, v, n⟩ := kvn
      have hb := matchAttrAt_bounds hm
      simp only [List.foldl_cons]
      exact ih (s.drop n) (by simp only [List.length_drop]; omega) (objSet acc k v)
    | none =>
      cases s with
      | nil => rfl
      | cons c rest =>
        exact ih rest (by simp only [List.length_cons] at hN; omega) acc

theorem attrScan_eq_fold (s : List Char) (acc : List (String × String)) :
    attrScan s acc
      = (attrMatchList s).foldl (fun m kv => objSet m kv.1 kv.2) acc :=
  attrScan_eq_foldN s.length s le_rfl acc

theorem find?_cons_eq (f : String × String → Bool) (a : String × String)
    (l : List (String × String)) :
    (a :: l).find? f = if f a = true then some a else l.find? f := by
  cases h : f a
  · simp [List.find?_cons, h]
  · simp [List.find?_cons, h]

theorem find?_map_replace (m : List (String × String)) (k v : String)
    (hany : m.any (fun p => p.1 == k) = true) :
    (m.map (fun p => if p.1 == k then (k, v) else p)).find? (fun kv => kv.1 == k)
      = some (k, v) := by
  induction m with
  | nil => simp at hany
  | cons p tl ih =>
    simp only [List.map_cons]
    by_cases hp : (p.1 == k) = true
    · rw [if_pos hp, find?_cons_eq]
      rw [if_pos (by simp)]
    · rw [if_neg hp, find?_cons_eq]
      rw [if_neg (by simpa using hp)]
      apply ih
      simp only [List.any_cons, hp] at hany
      simpa using hany

theorem find?_append_new (m : List (String × String)) (k v : String)
    (hany : m.any (fun p => p.1 == k) = false) :
    (m ++ [(k, v)]).find? (fun kv => kv.1 == k) = some (k, v) := by
  induction m with
  | nil =>
    simp only [List.nil_append]
    rw [find?_cons_eq]
    rw [if_pos (by simp)]
  | cons p tl ih =>
    simp only [List.any_cons, Bool.or_eq_false_iff] at hany
    simp only [List.cons_append]
    rw [find?_cons_eq, if_neg (by simpa using hany.1)]
    exact ih hany.2

theorem objSet_find_self (m : List (String × String)) (k v : String) :
    (objSet m k v).find? (fun kv => kv.1 == k) = some (k, v) := by
  unfold objSet
  split
  · exact find?_map_replace m k v (by assumption)
  · rename_i h
    exact find?_append_new m k v (Bool.eq_false_iff.mpr h)

theorem find?_map_other (m : List (String × String)) (k v k' : String)
    (hne : k' ≠ k) :
    (m.map (fun p => if p.1 == k then (k, v) else p)).find? (fun kv => kv.1 == k')
      = m.find? (fun kv => kv.1 == k') := by
  induction m with
  | nil => simp
  | cons p tl ih =>
    simp only [List.map_cons]
    by_cases hp : (p.1 == k) = true
    · have hpk : p.1 = k := by simpa using hp
      rw [if_pos hp, find?_cons_eq, find?_cons_eq]
      rw [if_neg (show ¬ ((((k, v) : String × String).1 == k') = true) by
          simpa using Ne.symm hne),
        if_neg (show ¬ ((p.1 == k') = true) by rw [hpk]; simpa using Ne.symm hne)]
      exact ih
    · rw [if_neg hp, find?_cons_eq, find?_cons_eq]
      by_cases hq : (p.1 == k') = true
      · rw [if_pos hq, if_pos hq]
      · rw [if_neg hq, if_neg hq]
        exact ih

theorem objSet_find_other (m : List (String × String)) (k v k' : String)
    (hne : k' ≠ k) :
    (objSet m k v).find? (fun kv => kv.1 == k')
      = m.find? (fun kv => kv.1 == k') := by
  unfold objSet
  split
  · exact find?_map_other m k v k' hne
  · rw [List.find?_append]
    have h0 : List.find? (fun kv => kv.1 == k') [(k, v)] = none := by
      rw [find?_cons_eq]
      rw [if_neg (by simpa using Ne.symm hne)]
      rfl
    rw [h0]
    simp

theorem fold_objSet_find_last (ms : List (String × String)) :
    ∀ (acc : List (String × String)) (k : String),
    ((ms.foldl (fun m kv => objSet m kv.1 kv.2) acc).find? (fun kv => kv.1 == k))
      = ((ms.filter (fun kv => kv.1 == k)).getLast?).or
          (acc.find? (fun kv => kv.1 == k)) := by
  induction ms with
  | nil => intro acc k; simp [Option.or]
  | cons kv tl ih =>
    intro acc k
    simp only [List.foldl_cons]
    rw [ih (objSet acc kv.1 kv.2) k]
    rcases htl : tl.filter (fun kv => kv.1 == k) with _ | ⟨x, xs⟩
    · by_cases hk : (kv.1 == k) = true
      · have hk' : kv.1 = k := by simpa using hk
        subst hk'
        have h1 : ((kv :: tl).filter (fun y => y.1 == kv.1)) = [kv] := by
          simp only [List.filter_cons]
          rw [if_pos (by simp), htl]
        rw [h1, htl, objSet_find_self]
        simp [Option.or]
      · have h1 : ((kv :: tl).filter (fun y => y.1 == k)) = [] := by
          simp only [List.filter_cons]
          rw [if_neg (by simpa using hk), htl]
        rw [h1, htl, objSet_find_other _ _ _ _ (fun he => hk (by simp [he]))]
    · have hgl : ((kv :: tl).filter (fun y => y.1 == k)).getLast?
          = (x :: xs).getLast? := by
        by_cases hk : (kv.1 == k) = true
        · simp only [List.filter_cons]
          rw [if_pos hk, htl, List.getLast?_cons_cons]
        · simp only [List.filter_cons]
          rw [if_neg (by simpa using hk), htl]
      rw [htl, hgl]
      cases h2 : (x :: xs).getLast? with
      | none => simp at h2
      | some y => simp [Option.or]

theorem objSet_keys_any (m : List (String × String)) (k v : String)
    (hany : m.any (fun p => p.1 == k) = true) :
    (objSet m k v).map Prod.fst = m.map Prod.fst := by
  unfold objSet
  rw [if_pos hany, List.map_map]
  apply List.map_congr_left
  intro p _
  by_cases hp : (p.1 == k) = true
  · simp only [Function.comp_apply, if_pos hp]
    have : p.1 = k := by simpa using hp
    simp [this]
  · simp only [Function.comp_apply, if_neg hp]

theorem objSet_keys_new (m : List (String × String)) (k v : String)
    (hany : m.any (fun p => p.1 == k) = false) :
    (objSet m k v).map Prod.fst = m.map Prod.fst ++ [k] := by
  unfold objSet
  rw [if_neg (by simp [hany]), List.map_append]
  rfl

theorem objSet_keys_nodup (m : List (String × String)) (k v : String)
    (h : (m.map Prod.fst).Nodup) : ((objSet m k v).map Prod.fst).Nodup := by
  cases hany : m.any (fun p => p.1 == k) with
  | true => rw [objSet_keys_any m k v hany]; exact h
  | false =>
    rw [objSet_keys_new m k v hany]
    have hk : k ∉ m.map Prod.fst := by
      intro hmem
      obtain ⟨p, hp, hpk⟩ := List.mem_map.mp hmem
      have h2 := List.any_eq_false.mp hany p hp
      have h3 : p.1 ≠ k := by simpa using h2
      exact h3 hpk
    simp [List.nodup_append, h, hk]

theorem fold_objSet_nodup (ms : List (String × String)) :
    ∀ acc : List (String × String), (acc.map Prod.fst).Nodup →
    (((ms.foldl (fun m kv => objSet m kv.1 kv.2) acc)).map Prod.fst).Nodup := by
  induction ms with
  | nil => intro acc h; exact h
  | cons kv tl ih =>
    intro acc h
    simp only [List.foldl_cons]
    exact ih _ (objSet_keys_nodup acc kv.1 kv.2 h)

/-! ### C7: duplicate attribute keys resolve to the last occurrence -/

/-- C7: the attribute mapping built by `_parseTagString` has pairwise
distinct keys (each key appears at most once); looking a key up in the
scanned mapping yields exactly the last `key="value"` match for that key in
the left-to-right match sequence; and on the concrete duplicate-key tag
string `a x="1" x="2"` the mapping resolves `x` to `"2"`. -/
theorem duplicate_attribute_keys_last_wins :
    (∀ s : List Char, (((parseTagString s).2).map Prod.fst).Nodup) ∧
      (∀ (rest : List Char) (k : String),
        (attrScan rest []).find? (fun kv => kv.1 == k)
          = ((attrMatchList rest).filter (fun kv => kv.1 == k)).getLast?) ∧
      parseTagString ("a x=\"1\" x=\"2\"".data) = (some "a", [("x", "2")]) := by
  refine ⟨?_, ?_, by decide⟩
  · intro s
    by_cases h1 : (s.takeWhile isNameChar).isEmpty = true
    · simp [parseTagString, h1]
    · by_cases h2 : nameEndOk s (s.takeWhile isNameChar).length = true
      · simp only [parseTagString, h1, h2, if_false, if_true]
        rw [attrScan_eq_fold]
        refine fold_objSet_nodup _ [] ?_
        simp
      · simp [parseTagString, h1, h2]
  · intro rest k
    rw [attrScan_eq_fold, fold_objSet_find_last]
    rw [show List.find? (fun kv => kv.1 == k) ([] : List (String × String)) = none from rfl]
    cases hX : ((attrMatchList rest).filter (fun kv => kv.1 == k)).getLast? with
    | none => rfl
    | some y => rfl

/-! ### C10: attribute pairs with empty values are dropped -/

theorem matchAttrAt_val_ne {s : List Char} {k v : String} {n : Nat}
    (h : matchAttrAt s = some (k, v, n)) : v ≠ "" := by
  simp only [matchAttrAt] at h
  split at h
  · exact absurd h (by simp)
  · split at h
    · split at h
      · exact absurd h (by simp)
      · rename_i hvne
        split at h
        · simp only [Option.some.injEq, Prod.mk.injEq] at h
          obtain ⟨-, hv, -⟩ := h
          intro hc
          rw [← hv] at hc
          have hdata := congrArg String.data hc
          simp only at hdata
          exact hvne (by simp [hdata])
        · exact absurd h (by simp)
    · exact absurd h (by simp)

theorem objSet_mem {m : List (String × String)} {k v : String}
    {kv : String × String} (h : kv ∈ objSet m k v) : kv ∈ m ∨ kv = (k, v) := by
  unfold objSet at h
  split at h
  · obtain ⟨p, hp, hkv⟩ := List.mem_map.mp h
    by_cases hc : (p.1 == k) = true
    · right; rw [if_pos hc] at hkv; exact hkv.symm
    · left; rw [if_neg hc] at hkv; exact hkv ▸ hp
  · rcases List.mem_append.mp h with h' | h'
    · exact Or.inl h'
    · exact Or.inr (by simpa using h')

theorem attrScan_vals : ∀ (N : Nat) (s : List Char), s.length ≤ N →
    ∀ acc, (∀ kv ∈ acc, kv.2 ≠ "") →
    ∀ kv ∈ attrScan s acc, kv.2 ≠ "" := by
  intro N
  induction N with
  | zero =>
    intro s hN acc hacc kv hkv
    have hs : s = [] := List.length_eq_zero.mp (Nat.le_zero.mp hN)
    subst hs
    rw [attrScan_eq] at hkv
    exact hacc kv hkv
  | succ N ih =>
    intro s hN acc hacc kv hkv
    rw [attrScan_eq] at hkv
    revert hkv
    cases hm : matchAttrAt s with
    | some kvn =>
      obtain ⟨k, v, n⟩ := kvn
      intro hkv
      have hb := matchAttrAt_bounds hm
      refine ih (s.drop n) (by simp only [List.length_drop]; omega) _ ?_ kv hkv
      intro kv' hkv'
      rcases objSet_mem hkv' with h' | h'
      · exact hacc kv' h'
      · rw [h']
        exact matchAttrAt_val_ne hm
    | none =>
      cases s with
      | nil => intro hkv; exact hacc kv hkv
      | cons c rest =>
        intro hkv
        exact ih rest (by simp only [List.length_cons] at hN; omega) acc hacc kv hkv

/-- C10: every pair in the mapping returned by `_parseTagString` has a value
with at least one character (the value part of the attribute regular
expression requires one or more characters), so `key=""` pairs are silently
omitted; consequently `a x=""` parses to an empty mapping and the
self-closing tag `<a x=""/>` is treated as attribute-less and receives the
self-closing marker. -/
theorem attribute_values_nonempty :
    (∀ (s : List Char) (kv : String × String),
        kv ∈ (parseTagString s).2 → kv.2 ≠ "") ∧
      parseTagString ("a x=\"\"".data) = (some "a", []) ∧
      (writeChunk initialParser ("<a x=\"\"/>".data)).2
        = [Event.opentag (some "a") selfClosingAttrs,
           Event.closetag (some "a") selfClosingAttrs] := by
  refine ⟨?_, by decide, by decide⟩
  intro s kv hkv
  by_cases h1 : (s.takeWhile isNameChar).isEmpty = true
  · simp [parseTagString, h1] at hkv
  · by_cases h2 : nameEndOk s (s.takeWhile isNameChar).length = true
    · simp only [parseTagString, h1, h2, if_false, if_true] at hkv
      exact attrScan_vals _ _ le_rfl [] (by simp) kv hkv
    · simp [parseTagString, h1, h2] at hkv

/-- Witness for C10: the pair `("x", "1")` is in the mapping parsed from
`a x="1"` and its value is nonempty. -/
theorem attribute_values_nonempty_witness :
    ("x", "1") ∈ (parseTagString ("a x=\"1\"".data)).2 ∧ ("1" : String) ≠ "" := by
  refine ⟨by decide, ?_⟩
  exact attribute_values_nonempty.1 ("a x=\"1\"".data) ("x", "1") (by decide)

/-! ### CDATA scanning lemmas -/

theorem containsRB_cons_ne (a : Char) (l : List Char) (ha : (a == ']') = false) :
    containsRB (a :: l) = containsRB l := by
  cases l with
  | nil => rfl
  | cons b l' => simp [containsRB, ha]

theorem containsRB_tail {a : Char} {l : List Char}
    (h : containsRB (a :: l) = false) : containsRB l = false := by
  cases l with
  | nil => rfl
  | cons b l' =>
    simp only [containsRB, Bool.or_eq_false_iff] at h
    exact h.2

theorem containsRB_head {a b : Char} {l : List Char}
    (h : containsRB (a :: b :: l) = false) : (a == ']' && b == '>') = false := by
  simp only [containsRB, Bool.or_eq_false_iff] at h
  exact h.1

theorem containsRB_append_rr : ∀ (X : List Char), containsRB X = false →
    containsRB (X ++ [']', ']']) = false := by
  intro X
  induction X with
  | nil => intro _; rfl
  | cons a X' ih =>
    intro h
    cases X' with
    | nil =>
      simp only [List.cons_append, List.nil_append, containsRB]
      simp
    | cons b X'' =>
      simp only [List.cons_append] at ih ⊢
      simp only [containsRB, Bool.or_eq_false_iff] at h ⊢
      exact ⟨h.1, by simpa using ih h.2⟩

theorem startsWith_rb {l : List Char} (h : startsWith l [']', '>'] = true) :
    containsRB l = true := by
  match l with
  | [] => simp [startsWith] at h
  | [a] => simp [startsWith] at h
  | a :: b :: r =>
    simp only [startsWith, Bool.and_eq_true] at h
    simp [containsRB, h.1, h.2.1]

theorem jsLastIndexOfAux_rb_none : ∀ (l : List Char) (i : Nat) (b : Int),
    containsRB l = false → jsLastIndexOfAux l [']', '>'] i b = b := by
  intro l
  induction l with
  | nil =>
    intro i b _
    rfl
  | cons a r ih =>
    intro i b h
    have hsw : startsWith (a :: r) [']', '>'] = false := by
      cases hs : startsWith (a :: r) [']', '>'] with
      | false => rfl
      | true => rw [startsWith_rb hs] at h; exact absurd h (by simp)
    show jsLastIndexOfAux (a :: r) [']', '>'] i b = b
    rw [jsLastIndexOfAux]
    simp only [hsw, Bool.false_eq_true, if_false]
    exact ih (i + 1) b (containsRB_tail h)

theorem jsLastIndexOf_rb_none (l : List Char) (h : containsRB l = false) :
    jsLastIndexOf l [']', '>'] = -1 :=
  jsLastIndexOfAux_rb_none l 0 (-1) h

theorem startsWith_nil_pat (l : List Char) : startsWith l [] = true := by
  cases l <;> rfl

theorem jsIndexOf_cdata_open (r : List Char) :
    jsIndexOf ('C' :: 'D' :: 'A' :: 'T' :: 'A' :: '[' :: r) ['['] = 5 := by
  show jsIndexOfAux _ _ 0 = 5
  rw [jsIndexOfAux]
  rw [if_neg (by simp [startsWith])]
  rw [jsIndexOfAux]
  rw [if_neg (by simp [startsWith])]
  rw [jsIndexOfAux]
  rw [if_neg (by simp [startsWith])]
  rw [jsIndexOfAux]
  rw [if_neg (by simp [startsWith])]
  rw [jsIndexOfAux]
  rw [if_neg (by simp [startsWith])]
  rw [jsIndexOfAux]
  rw [if_pos (by simp [startsWith, startsWith_nil_pat])]
  norm_num

theorem jsIdx_append_head (V : List Char) (a : Char) (W : List Char) (i : Int)
    (hi : i = V.length) : jsIdx (V ++ a :: W) i = some a := by
  subst hi
  unfold jsIdx
  rw [if_pos (by positivity)]
  rw [Int.toNat_natCast]
  rw [List.get?_append_right le_rfl]
  simp

theorem jsSlice_nonneg (l : List Char) (sa sb : Int) (a b : Nat)
    (hsa : sa = (a : Int)) (hsb : sb = (b : Int)) :
    jsSlice l sa sb = (l.take b).drop a := by
  subst hsa
  subst hsb
  simp only [jsSlice]
  rw [if_neg (by omega), if_neg (by omega)]
  have h1 : (min ((a : Nat) : Int) ((l.length : Nat) : Int)).toNat = min a l.length := by
    omega
  have h2 : (min ((b : Nat) : Int) ((l.length : Nat) : Int)).toNat = min b l.length := by
    omega
  rw [h1, h2]
  have htake : l.take (min b l.length) = l.take b := by
    rcases le_total b l.length with hb | hb
    · rw [min_eq_left hb]
    · rw [min_eq_right hb, List.take_length, List.take_of_length_le hb]
  rw [htake]
  rcases le_total a l.length with ha | ha
  · rw [min_eq_left ha]
  · rw [min_eq_right ha]
    rw [List.drop_eq_nil_of_le (by simp only [List.length_take]; omega),
      List.drop_eq_nil_of_le (by simp only [List.length_take]; omega)]

theorem jsSlice_negstop (l : List Char) (sa sb : Int) (a m : Nat)
    (hsa : sa = (a : Int)) (hsb : sb = -(m : Int)) (hm : 0 < m) :
    jsSlice l sa sb = (l.take (l.length - m)).drop a := by
  subst hsa
  subst hsb
  simp only [jsSlice]
  rw [if_neg (by omega), if_pos (by omega)]
  have h1 : (min ((a : Nat) : Int) ((l.length : Nat) : Int)).toNat = min a l.length := by
    omega
  have h2 : (max (((l.length : Nat) : Int) + -(m : Int)) 0).toNat = l.length - m := by
    omega
  rw [h1, h2]
  rcases le_total a l.length with ha | ha
  · rw [min_eq_left ha]
  · rw [min_eq_right ha]
    rw [List.drop_eq_nil_of_le (by simp only [List.length_take]; omega),
      List.drop_eq_nil_of_le (by simp only [List.length_take]; omega)]

theorem cdata_step_notgt (p : ParserS) (c : Char) (hs : p.state = STATE.CDATA)
    (hc : (c == '>') = false) :
    processChar p c = ({ p with buffer := p.buffer ++ [c], pos := p.pos + 1 }, []) := by
  obtain ⟨st, buf, pos, tt⟩ := p
  simp only at hs
  subst hs
  simp only [processChar]
  rw [if_neg (by simp [hc])]

theorem cdata_feed : ∀ (X A : List Char) (c0 : Char) (tt : TAG_TYPE),
    containsRB (c0 :: X) = false →
    writeChunk (ParserS.mk STATE.CDATA (A ++ [c0]) (A ++ [c0]).length tt) X
      = (ParserS.mk STATE.CDATA ((A ++ [c0]) ++ X) ((A ++ [c0]) ++ X).length tt, []) := by
  intro X
  induction X with
  | nil =>
    intro A c0 tt _
    simp [writeChunk]
  | cons c X' ih =>
    intro A c0 tt h
    have hpair := containsRB_head h
    have hprev : jsIdx (A ++ [c0]) ((((A ++ [c0]).length : Nat) : Int) - 1) = some c0 :=
      jsIdx_append_head A c0 [] _
        (by simp only [List.length_append, List.length_cons, List.length_nil]; omega)
    have hstep : processChar (ParserS.mk STATE.CDATA (A ++ [c0]) (A ++ [c0]).length tt) c
        = (ParserS.mk STATE.CDATA ((A ++ [c0]) ++ [c]) ((A ++ [c0]).length + 1) tt, []) := by
      simp only [processChar]
      split
      · rename_i hcond
        exfalso
        simp only [Bool.and_eq_true, beq_iff_eq] at hcond
        obtain ⟨⟨-, h2⟩, h3⟩ := hcond
        rw [hprev] at h2
        obtain rfl : c0 = ']' := Option.some_injective _ h2
        subst h3
        simp at hpair
      · rfl
    have hw : writeChunk (ParserS.mk STATE.CDATA (A ++ [c0]) (A ++ [c0]).length tt) (c :: X')
        = writeChunk
            (ParserS.mk STATE.CDATA ((A ++ [c0]) ++ [c]) ((A ++ [c0]).length + 1) tt) X' := by
      simp only [writeChunk, List.foldl_cons, hstep]
      simp
    rw [hw]
    have hlen : ((A ++ [c0]) ++ [c]).length = (A ++ [c0]).length + 1 := by simp
    have hih := ih (A ++ [c0]) c tt (containsRB_tail h)
    rw [hlen] at hih
    rw [hih]
    simp [List.append_assoc]

theorem cdata_trigger (X : List Char) (tt : TAG_TYPE) (hX : containsRB X = false) :
    processChar (ParserS.mk STATE.CDATA ((("[CDATA[".data ++ X) ++ [']']) ++ [']'])
        (("[CDATA[".data ++ X).length + 1 + 1) tt) '>'
      = (ParserS.mk STATE.TEXT ['>'] 1 tt, [Event.cdata (String.mk X)]) := by
  have hprev : jsIdx ((("[CDATA[".data ++ X) ++ [']']) ++ [']'])
      (((("[CDATA[".data ++ X).length + 1 + 1 : Nat) : Int) - 1) = some ']' :=
    jsIdx_append_head (("[CDATA[".data ++ X) ++ [']']) ']' [] _
      (by simp only [List.length_append, List.length_cons, List.length_nil]; omega)
  have hl3 : jsIdx (((("[CDATA[".data ++ X) ++ [']']) ++ [']']) ++ ['>'])
      (((("[CDATA[".data ++ X).length + 1 + 1 + 1 : Nat) : Int) - 3) = some ']' := by
    have hsh : (((("[CDATA[".data ++ X) ++ [']']) ++ [']']) ++ ['>'])
        = ("[CDATA[".data ++ X) ++ (']' :: [']', '>']) := by simp
    rw [hsh]
    exact jsIdx_append_head ("[CDATA[".data ++ X) ']' [']', '>'] _ (by omega)
  simp only [processChar]
  rw [if_pos (by rw [hl3, hprev]; simp)]
  simp only [onCDATAEnd, endRecording]
  have hbuf : jsSliceFrom (((("[CDATA[".data ++ X) ++ [']']) ++ [']']) ++ ['>'])
      (-1) = ['>'] := by
    rw [jsSliceFrom_neg_one]
    rw [show (((("[CDATA[".data ++ X) ++ [']']) ++ [']']) ++ ['>']).length - 1
        = ((("[CDATA[".data ++ X) ++ [']']) ++ [']']).length by simp]
    exact List.drop_left _ _
  have hrcd : jsSlice (((("[CDATA[".data ++ X) ++ [']']) ++ [']']) ++ ['>'])
      1 (((("[CDATA[".data ++ X).length + 1 + 1 + 1 : Nat) : Int) - 1)
      = 'C' :: 'D' :: 'A' :: 'T' :: 'A' :: '[' :: (X ++ [']', ']']) := by
    rw [jsSlice_nonneg _ (1 : Int)
      ((((("[CDATA[".data ++ X).length + 1 + 1 + 1 : Nat)) : Int) - 1)
      1 (("[CDATA[".data ++ X).length + 2) (by norm_num) (by omega)]
    rw [show ("[CDATA[".data ++ X).length + 2
        = ((("[CDATA[".data ++ X) ++ [']']) ++ [']']).length by simp]
    rw [List.take_left]
    have hsh : ((("[CDATA[".data ++ X) ++ [']']) ++ [']'])
        = '[' :: ('C' :: 'D' :: 'A' :: 'T' :: 'A' :: '[' :: (X ++ [']', ']'])) := by
      simp
    rw [hsh]
    rfl
  rw [hbuf, hrcd]
  have hcrb : containsRB
      ('C' :: 'D' :: 'A' :: 'T' :: 'A' :: '[' :: (X ++ [']', ']'])) = false := by
    rw [containsRB_cons_ne _ _ (by decide), containsRB_cons_ne _ _ (by decide),
      containsRB_cons_ne _ _ (by decide), containsRB_cons_ne _ _ (by decide),
      containsRB_cons_ne _ _ (by decide), containsRB_cons_ne _ _ (by decide)]
    exact containsRB_append_rr X hX
  rw [jsIndexOf_cdata_open (X ++ [']', ']']), jsLastIndexOf_rb_none _ hcrb]
  have htext : jsSlice ('C' :: 'D' :: 'A' :: 'T' :: 'A' :: '[' :: (X ++ [']', ']']))
      ((5 : Int) + 1) ((-1 : Int) - 1) = X := by
    rw [jsSlice_negstop _ ((5 : Int) + 1) ((-1 : Int) - 1) 6 2
      (by norm_num) (by norm_num) (by norm_num)]
    have hlen2 : ('C' :: 'D' :: 'A' :: 'T' :: 'A' :: '[' :: (X ++ [']', ']'])).length - 2
        = (('C' :: 'D' :: 'A' :: 'T' :: 'A' :: '[' :: X)).length := by
      simp only [List.length_cons, List.length_append, List.length_nil]
      omega
    rw [hlen2]
    have hsh : ('C' :: 'D' :: 'A' :: 'T' :: 'A' :: '[' :: (X ++ [']', ']']))
        = ('C' :: 'D' :: 'A' :: 'T' :: 'A' :: '[' :: X) ++ [']', ']'] := by simp
    rw [hsh, List.take_left]
    rw [show ('C' :: 'D' :: 'A' :: 'T' :: 'A' :: '[' :: X)
        = (['C', 'D', 'A', 'T', 'A', '['] ++ X) from rfl]
    rw [show (6 : Nat) = (['C', 'D', 'A', 'T', 'A', '['] : List Char).length from rfl]
    exact List.drop_left _ _
  rw [htext]

theorem cdata_close (X : List Char) (tt : TAG_TYPE) (hX : containsRB X = false) :
    writeChunk (ParserS.mk STATE.CDATA ("[CDATA[".data ++ X)
        ("[CDATA[".data ++ X).length tt) ("]]>".data)
      = (ParserS.mk STATE.TEXT ['>'] 1 tt, [Event.cdata (String.mk X)]) := by
  rw [show ("]]>".data) = [']', ']', '>'] from rfl]
  have h1 := cdata_step_notgt (ParserS.mk STATE.CDATA ("[CDATA[".data ++ X)
    ("[CDATA[".data ++ X).length tt) ']' rfl rfl
  have h2 := cdata_step_notgt (ParserS.mk STATE.CDATA (("[CDATA[".data ++ X) ++ [']'])
    (("[CDATA[".data ++ X).length + 1) tt) ']' rfl rfl
  have h3 := cdata_trigger X tt hX
  simp only [writeChunk, List.foldl_cons, List.foldl_nil]
  rw [h1]
  simp only [List.nil_append]
  rw [h2]
  simp only [List.nil_append]
  rw [h3]

/-! ### C3 (corrected): the CDATA payload slicing -/

/-- C3 counterexample: the content `]>` contains no occurrence of the
terminator `]]>` (its index is `-1`), yet feeding `<![CDATA[]>]]>` to a
fresh tokenizer emits `cdata("")`, not `cdata("]>")`: `lastIndexOf(']>')`
finds the occurrence inside the content and the slice collapses. -/
theorem cdata_literal_claim_false :
    jsIndexOf ("]>".data) ("]]>".data) = -1
      ∧ (writeChunk initialParser ("<![CDATA[]>]]>".data)).2 = [Event.cdata ""]
      ∧ (writeChunk initialParser ("<![CDATA[]>]]>".data)).2 ≠ [Event.cdata "]>"] := by
  refine ⟨by decide, by decide, by decide⟩

/-- C3 (amended): for every content sequence `X` that contains no occurrence
of the two-character sequence `]>` (a condition strictly stronger than
containing no `]]>`), feeding `<![CDATA[` ++ `X` ++ `]]>` to a fresh
tokenizer emits exactly one event, `cdata(X)`: the recorded token
`CDATA[` ++ `X` ++ `]]` has its `[CDATA[` prefix and the final `]` before
`]>` stripped, leaving the literal text `X`. -/
theorem cdata_emits_content_no_rb (X : List Char) (hX : containsRB X = false) :
    (writeChunk initialParser ("<![CDATA[".data ++ (X ++ "]]>".data))).2
      = [Event.cdata (String.mk X)] := by
  rw [writeChunk_append initialParser ("<![CDATA[".data) (X ++ "]]>".data)]
  have h0 : writeChunk initialParser ("<![CDATA[".data)
      = (ParserS.mk STATE.CDATA ("[CDATA[".data) 7 TAG_TYPE.OPENING, []) := by decide
  rw [h0]
  simp only [List.nil_append]
  rw [writeChunk_append _ X ("]]>".data)]
  have hfeed := cdata_feed X ("[CDATA".data) '[' TAG_TYPE.OPENING
    (by rw [containsRB_cons_ne '[' X (by decide)]; exact hX)
  rw [show ("[CDATA".data ++ ['[']) = ("[CDATA[".data) from rfl] at hfeed
  rw [show (("[CDATA[".data : List Char).length) = 7 from rfl] at hfeed
  rw [hfeed]
  simp only [List.nil_append]
  rw [cdata_close X TAG_TYPE.OPENING hX]

/-- Witness for the amended C3 at the spec's own example content
`<raw & stuff>` (which contains no `]>`). -/
theorem cdata_emits_content_no_rb_witness :
    containsRB ("<raw & stuff>".data) = false
      ∧ (writeChunk initialParser ("<![CDATA[".data ++ ("<raw & stuff>".data ++ "]]>".data))).2
          = [Event.cdata "<raw & stuff>"] := by
  refine ⟨by decide, ?_⟩
  exact cdata_emits_content_no_rb ("<raw & stuff>".data) (by decide)

end Xmlr
